import Mathlib

/-! # hellonode: discovery-driven peer mesh maintenance

A shallow embedding of `src/hellonode/main.go`.

* Go strings and `[]byte` values are modelled by `String`; the conversion
  `string(kventry.Value)` copies the bytes and is the identity here.
* `n.Clients` (a Go `map[string]hs.HelloServiceClient`) is an association list
  from peer names to client handles.  The only values the program ever stores
  are the non-nil stubs returned by `hs.NewHelloServiceClient`, so the test
  `n.Clients[k] == nil` is the test that `k` has no entry.
* The transport (`grpc.Dial`, the `SayHello` RPC) and the directory
  (`n.SDKV.List`) are external: their answers are inputs of the model.
* `log.Fatalf` ends the process with `os.Exit(1)` (deferred calls do not run);
  `log.Panicln` panics, and nothing in the program recovers.
* The listening server of `StartListening` runs beside the main goroutine; its
  fate (serving, or a failure of `net.Listen` or `Serve` that ends the process)
  is an input of `Start`.
-/

namespace HelloNode

/-! ## Data model -/

/-- Identity of a connection created by `grpc.Dial`; a client stub made by
`hs.NewHelloServiceClient(conn)` is identified with its connection. -/
abbrev Handle := Nat

/-- The Go map `map[string]hs.HelloServiceClient`. -/
abbrev ClientMap := List (String × Handle)

/-- Map read `m[k]`: `none` is the nil value Go returns for a missing key. -/
def mapGet (m : ClientMap) (k : String) : Option Handle :=
  match m with
  | [] => none
  | (k', v) :: rest => if k' = k then some v else mapGet rest k

/-- Map assignment `m[k] = v`: replaces the entry of `k` or adds one. -/
def mapSet (m : ClientMap) (k : String) (v : Handle) : ClientMap :=
  (k, v) :: m.filter (fun p => p.1 != k)

/-- Keys of the map. -/
def mapKeys (m : ClientMap) : List String := m.map Prod.fst

/-- The struct `node` (the directory handle `SDKV` is external: its answers
are supplied to each cycle). -/
structure node where
  Name : String
  Addr : String
  SDAddress : String
  Clients : ClientMap
deriving DecidableEq

/-- The request `hs.HelloRequest`. -/
structure HelloRequest where
  Name : String
deriving DecidableEq

/-- The reply `hs.HelloReply`. -/
structure HelloReply where
  Message : String
deriving DecidableEq

/-- A directory record `api.KVPair`. -/
structure KVPair where
  Key : String
  Value : String
deriving DecidableEq

/-- The directory handle `api.KV` as seen at one moment: the answer of
`List(pfx, nil)`, an error or the returned pairs. -/
structure KV where
  List : String → Except String (List KVPair)

/-- What the transport does during one call of `SetupNewClient`. -/
inductive Outcome where
  | dialErr
  | greetErr
  | ok (reply : HelloReply)
deriving DecidableEq

/-- How a function of the program ends. -/
inductive Status where
  | returned
  | fatal
  | panicked
deriving DecidableEq

/-- Calls made to the transport, in program order. -/
inductive Event where
  | dial (peerName peerAddr : String) (ok : Bool)
  | greet (peerName : String) (reqName : String) (ok : Bool)
  | close (c : Handle)
deriving DecidableEq

/-- Connections created so far, each with its open flag; the connection with
handle `c` is the entry at index `c`. -/
abbrev Conns := List Bool

/-- Result of running a piece of the program: how it ended, the node and the
connections at that point, and the transport calls it made. -/
structure Result where
  status : Status
  n : node
  conns : Conns
  events : List Event
deriving DecidableEq

/-! ## Operations -/

/-- The handler `SayHello`: returns the reply, the error (`none` is nil) and
the node after the call. -/
def SayHello (n : node) (_req : HelloRequest) : HelloReply × Option String × node :=
  (⟨"Hello from " ++ n.Name⟩, none, n)

/-- The connection is closed by `conn.Close()`. -/
def closeConn (cs : Conns) (c : Handle) : Conns := cs.set c false

/-- The function `SetupNewClient`. -/
def SetupNewClient (n : node) (cs : Conns) (peerName peerAddr : String) (o : Outcome) : Result :=
  match o with
  | .dialErr =>
      -- grpc.Dial failed: log.Fatalf
      ⟨.fatal, n, cs, [.dial peerName peerAddr false]⟩
  | .greetErr =>
      let conn : Handle := cs.length
      let cs1 := cs ++ [true]
      let n1 := { n with Clients := mapSet n.Clients peerName conn }
      -- SayHello failed: log.Fatalf, the deferred Close does not run
      ⟨.fatal, n1, cs1, [.dial peerName peerAddr true, .greet peerName n.Name false]⟩
  | .ok _reply =>
      let conn : Handle := cs.length
      let cs1 := cs ++ [true]
      let n1 := { n with Clients := mapSet n.Clients peerName conn }
      -- return: the deferred conn.Close() runs
      ⟨.returned, n1, closeConn cs1 conn,
        [.dial peerName peerAddr true, .greet peerName n.Name true, .close conn]⟩

/-- The `for ... range kvpairs` loop of `GreetAllNeighbors`; `out i` is the
transport outcome at the entry with index `i` of the remaining listing. -/
def greetLoop (n : node) (cs : Conns) : List KVPair → (Nat → Outcome) → Result
  | [], _ => ⟨.returned, n, cs, []⟩
  | kventry :: rest, out =>
      if kventry.Key = n.Name then
        greetLoop n cs rest (fun i => out (i + 1))
      else if mapGet n.Clients kventry.Key = none then
        let r := SetupNewClient n cs kventry.Key kventry.Value (out 0)
        match r.status with
        | .returned =>
            let r2 := greetLoop r.n r.conns rest (fun i => out (i + 1))
            { r2 with events := r.events ++ r2.events }
        | _ => r
      else
        greetLoop n cs rest (fun i => out (i + 1))

/-- The listing call `n.SDKV.List("Node", nil)` issued by `GreetAllNeighbors`. -/
def listNeighbors (sdkv : KV) : Except String (List KVPair) := sdkv.List "Node"

/-- The function `GreetAllNeighbors`. -/
def GreetAllNeighbors (n : node) (cs : Conns) (sdkv : KV) (out : Nat → Outcome) : Result :=
  match listNeighbors sdkv with
  | .error _ => ⟨.panicked, n, cs, []⟩
  | .ok kvpairs => greetLoop n cs kvpairs out

/-- Environment of one reconciliation cycle: the directory answer and the
transport outcomes. -/
structure Cycle where
  sdkv : KV
  out : Nat → Outcome

/-- The `for` loop of `Start`, run for the cycles given: it stops at the first
cycle that does not return. -/
def mainLoop (n : node) (cs : Conns) : List Cycle → Result
  | [] => ⟨.returned, n, cs, []⟩
  | c :: rest =>
      let r := GreetAllNeighbors n cs c.sdkv c.out
      match r.status with
      | .returned =>
          let r2 := mainLoop r.n r.conns rest
          { r2 with events := r.events ++ r2.events }
      | _ => r

/-- Modelled from the spec: the external directory (consul KV) as a key-value
store holding one record per key. -/
abbrev Directory := List KVPair

/-- Modelled from the spec: `put` is an upsert of the record under its key. -/
def dirPut (d : Directory) (p : KVPair) : Directory :=
  p :: d.filter (fun q => q.Key != p.Key)

/-- Tests that `pfx` is a leading part of `s`. -/
def startsWith (s pfx : String) : Bool := pfx.data.isPrefixOf s.data

/-- Modelled from the spec: `list(pfx)` returns exactly the records whose key
starts with `pfx`. -/
def consulKV (d : Directory) : KV :=
  ⟨fun pfx => .ok (d.filter (fun q => startsWith q.Key pfx))⟩

/-- The function `registerMyselfToConsul` on the modelled directory:
`clientOk` and `putOk` tell whether `api.NewClient` and `kv.Put` succeed. -/
def registerMyselfToConsul (n : node) (d : Directory) (clientOk putOk : Bool) :
    Status × Directory :=
  if !clientOk then (.panicked, d)
  else if !putOk then (.panicked, d)
  else (.returned, dirPut d ⟨n.Name, n.Addr⟩)

/-- How the listening server started by `go n.StartListening()` fares: it
serves during the whole run, or `net.Listen` fails (the address cannot be
bound), or `Serve` fails.  A failure carries the step of the main goroutine at
which it strikes: step 0 is before the registration is done, step `k + 1` is
when the registration is done and `k` cycles are completed. -/
inductive Listener where
  | serving
  | listenErr (step : Nat)
  | serveErr (step : Nat)
deriving DecidableEq

/-- The function `StartListening`: `none` while it serves; on a failure of
`net.Listen` or of `Serve` it calls `log.Fatalf`, which ends the whole process,
and the answer is the step of the main goroutine at which that happens. -/
def StartListening (ls : Listener) : Option Nat :=
  match ls with
  | .serving => none
  | .listenErr step => some step
  | .serveErr step => some step

/-- The process is ended by the `log.Fatalf` of the listening server, unless
the main loop has already ended it. -/
def listenerExit (r : Result) : Result :=
  match r.status with
  | .returned => { r with status := .fatal }
  | _ => r

/-- The function `Start`, with the main loop run for the cycles given.  The
directory answers of the cycles are those of `cycles`, so that records put or
listings failed in the meantime are covered.  The listening server runs beside
the main goroutine; when it fails, the process ends at the step given by
`StartListening`, with the state the main goroutine has reached there. -/
def Start (n : node) (d : Directory) (ls : Listener) (clientOk putOk : Bool)
    (cycles : List Cycle) : Result :=
  let n0 := { n with Clients := [] }
  match StartListening ls with
  | some 0 => ⟨.fatal, n0, [], []⟩
  | some (k + 1) =>
      match (registerMyselfToConsul n0 d clientOk putOk).1 with
      | .returned =>
          if k ≤ cycles.length then listenerExit (mainLoop n0 [] (cycles.take k))
          else mainLoop n0 [] cycles
      | s => ⟨s, n0, [], []⟩
  | none =>
      match (registerMyselfToConsul n0 d clientOk putOk).1 with
      | .returned => mainLoop n0 [] cycles
      | s => ⟨s, n0, [], []⟩

/-- Connection attempts among the transport calls: name and address of each dial. -/
def attempts : List Event → List (String × String)
  | [] => []
  | .dial k a _ :: rest => (k, a) :: attempts rest
  | _ :: rest => attempts rest

/-- The unseen set of a cycle in the words of the spec: the entries of the
listing whose name is not the own name and not a key of the registry, in listing
order, each name kept at its first occurrence only. -/
def unseenSet (self : String) (known : List String) : List KVPair → List KVPair
  | [] => []
  | p :: rest =>
      if p.Key = self ∨ p.Key ∈ known then unseenSet self known rest
      else p :: unseenSet self (p.Key :: known) rest

/-- Directory handle that answers every listing with `l`. -/
def staticKV (l : List KVPair) : KV := ⟨fun _ => .ok l⟩

/-- Directory handle whose listing fails with error `e`. -/
def failingKV (e : String) : KV := ⟨fun _ => .error e⟩

/-- Every connect and greet succeeds. -/
def allOk (out : Nat → Outcome) : Prop := ∀ i, ∃ reply, out i = .ok reply

/-- Every handle of the registry refers to a closed connection. -/
def allClosed (m : ClientMap) (cs : Conns) : Prop :=
  ∀ k c, mapGet m k = some c → cs[c]? = some false

/-- Sequencing of two runs: the second starts where the first returned. -/
def Result.andThen (r r2 : Result) : Result := { r2 with events := r.events ++ r2.events }

/-- A relation between the state before a run and its result is stable when it
holds for a run that does nothing, for one call of `SetupNewClient` on an
unseen peer, and is kept by sequencing and by the exit of the process. -/
structure Stable (R : node → Conns → Result → Prop) : Prop where
  idle : ∀ (s : Status) (n : node) (cs : Conns), R n cs ⟨s, n, cs, []⟩
  setup : ∀ (n : node) (cs : Conns) (k a : String) (o : Outcome),
    k ≠ n.Name → mapGet n.Clients k = none → R n cs (SetupNewClient n cs k a o)
  seq : ∀ (n : node) (cs : Conns) (r r2 : Result),
    R n cs r → r.status = .returned → R r.n r.conns r2 → R n cs (r.andThen r2)
  exit : ∀ (n : node) (cs : Conns) (r : Result), R n cs r → R n cs { r with status := .fatal }

/-! ## The registry map -/

theorem mapGet_mapSet_self (m : ClientMap) (k : String) (v : Handle) :
    mapGet (mapSet m k v) k = some v := by
  simp [mapSet, mapGet]

theorem mapGet_filter_ne (m : ClientMap) (k k' : String) (h : k' ≠ k) :
    mapGet (m.filter (fun p => p.1 != k)) k' = mapGet m k' := by
  induction m with
  | nil => rfl
  | cons p rest ih =>
    obtain ⟨a, b⟩ := p
    by_cases hak : a = k
    · subst hak
      have : ¬ a = k' := fun e => h e.symm
      simp [List.filter_cons, mapGet, this, ih]
    · have hb : (a != k) = true := by simpa using hak
      by_cases hak' : a = k'
      · subst hak'
        simp [List.filter_cons, mapGet, hak]
      · simp [List.filter_cons, mapGet, hb, hak', ih]

theorem mapGet_mapSet_ne (m : ClientMap) (k k' : String) (v : Handle) (h : k' ≠ k) :
    mapGet (mapSet m k v) k' = mapGet m k' := by
  have hk : ¬ k = k' := fun e => h e.symm
  simp [mapSet, mapGet, hk, mapGet_filter_ne m k k' h]

theorem mapGet_eq_none_iff (m : ClientMap) (k : String) :
    mapGet m k = none ↔ k ∉ mapKeys m := by
  induction m with
  | nil => simp [mapGet, mapKeys]
  | cons p rest ih =>
    obtain ⟨a, b⟩ := p
    by_cases hak : a = k
    · simp [mapGet, mapKeys, hak]
    · have hka : ¬ k = a := fun e => hak e.symm
      simp only [mapKeys] at ih
      simp [mapGet, mapKeys, hak, hka, ih]

theorem filter_absent (m : ClientMap) (k : String) (h : mapGet m k = none) :
    m.filter (fun p => p.1 != k) = m := by
  induction m with
  | nil => rfl
  | cons p rest ih =>
    obtain ⟨a, b⟩ := p
    by_cases hak : a = k
    · simp [mapGet, hak] at h
    · simp only [mapGet, hak, if_false] at h
      have hb : (a != k) = true := by simpa using hak
      simp [List.filter_cons, hb, ih h]

theorem mapSet_absent (m : ClientMap) (k : String) (v : Handle) (h : mapGet m k = none) :
    mapSet m k v = (k, v) :: m := by
  simp [mapSet, filter_absent m k h]

/-! ## The greeting handler -/

/-- C9: for every node and every inbound request, `SayHello` returns the reply
whose message is "Hello from " followed by the node's own Name, with a nil
error; it leaves the node (registry and identity) unchanged; and the reply is
the same for any request and any node with the same Name. -/
theorem SayHello_reply_fixed (n : node) (req : HelloRequest) :
    (SayHello n req).1 = ⟨"Hello from " ++ n.Name⟩ ∧
    (SayHello n req).2.1 = none ∧
    (SayHello n req).2.2 = n ∧
    ∀ (req' : HelloRequest) (addr sd : String) (clients : ClientMap),
      (SayHello ⟨n.Name, addr, sd, clients⟩ req').1 = (SayHello n req).1 :=
  ⟨rfl, rfl, rfl, fun _ _ _ _ => rfl⟩

/-! ## A failed listing -/

/-- C3: evaluation of the code when the listing call fails: the cycle makes no
connection attempt and leaves the registry unchanged, but it ends in a panic
(`log.Panicln`), and the main loop of `Start` ends with it: the cycles that
follow are not run. -/
theorem list_failure_panics (n : node) (cs : Conns) (e : String) (out : Nat → Outcome)
    (later : List Cycle) :
    GreetAllNeighbors n cs (failingKV e) out = ⟨.panicked, n, cs, []⟩ ∧
    mainLoop n cs (⟨failingKV e, out⟩ :: later) = ⟨.panicked, n, cs, []⟩ :=
  ⟨rfl, rfl⟩

/-! ## Registration in the directory -/

theorem mem_dirPut (d : Directory) (p q : KVPair) :
    q ∈ dirPut d p ↔ q = p ∨ (q ∈ d ∧ q.Key ≠ p.Key) := by
  simp [dirPut, List.mem_filter]

theorem mem_foldl_dirPut (others : List KVPair) (d : Directory) (q : KVPair)
    (hq : q ∈ d) (hothers : ∀ p ∈ others, p.Key ≠ q.Key) :
    q ∈ others.foldl dirPut d := by
  induction others generalizing d with
  | nil => simpa using hq
  | cons p rest ih =>
    simp only [List.foldl_cons]
    apply ih
    · rw [mem_dirPut]
      right
      exact ⟨hq, fun e => hothers p (List.mem_cons_self _ _) e.symm⟩
    · intro p' hp'
      exact hothers p' (List.mem_cons_of_mem _ hp')

/-- C5 (counterexample): the node named "A" registers successfully in the empty
directory, and the listing that `GreetAllNeighbors` issues right after returns
no record at all. -/
theorem register_not_listed :
    (registerMyselfToConsul ⟨"A", "localhost:5001", "localhost:8500", []⟩ [] true true).1
        = Status.returned ∧
    listNeighbors (consulKV
      (registerMyselfToConsul ⟨"A", "localhost:5001", "localhost:8500", []⟩ [] true true).2)
        = Except.ok [] := by
  constructor
  · rfl
  · simp [registerMyselfToConsul, listNeighbors, consulKV, dirPut, startsWith,
      List.isPrefixOf]

/-- C5 (amended): after `registerMyselfToConsul` succeeds, and whatever records
other nodes put under other names afterwards, the listing issued by
`GreetAllNeighbors` succeeds and returns the record (Name, Addr) exactly when
the node's Name starts with the fixed namespace "Node". -/
theorem register_listed_iff (n : node) (d : Directory) (others : List KVPair)
    (hothers : ∀ p ∈ others, p.Key ≠ n.Name) :
    (registerMyselfToConsul n d true true).1 = Status.returned ∧
    ∃ l, listNeighbors (consulKV
        (others.foldl dirPut (registerMyselfToConsul n d true true).2)) = Except.ok l ∧
      ((⟨n.Name, n.Addr⟩ : KVPair) ∈ l ↔ startsWith n.Name "Node" = true) := by
  refine ⟨rfl, _, rfl, ?_⟩
  simp only [registerMyselfToConsul, Bool.not_true, Bool.false_eq_true, if_false,
    List.mem_filter]
  constructor
  · intro h
    exact h.2
  · intro h
    refine ⟨?_, h⟩
    apply mem_foldl_dirPut
    · rw [mem_dirPut]
      left
      rfl
    · exact hothers

/-- C5 (witness): the node "Node1" stays listed after "Node2" registers. -/
theorem register_listed_iff_witness :
    (∀ p ∈ [(⟨"Node2", "b"⟩ : KVPair)], p.Key ≠ (⟨"Node1", "a", "sd", []⟩ : node).Name) ∧
    (registerMyselfToConsul ⟨"Node1", "a", "sd", []⟩ [] true true).1 = Status.returned ∧
    ∃ l, listNeighbors (consulKV
        ([(⟨"Node2", "b"⟩ : KVPair)].foldl dirPut
          (registerMyselfToConsul ⟨"Node1", "a", "sd", []⟩ [] true true).2)) = Except.ok l ∧
      ((⟨"Node1", "a"⟩ : KVPair) ∈ l ↔ startsWith "Node1" "Node" = true) :=
  ⟨by decide,
    register_listed_iff ⟨"Node1", "a", "sd", []⟩ [] [⟨"Node2", "b"⟩] (by decide)⟩

/-! ## One call of `SetupNewClient` -/

theorem setup_name (n : node) (cs : Conns) (k a : String) (o : Outcome) :
    (SetupNewClient n cs k a o).n.Name = n.Name := by
  cases o <;> rfl

theorem setup_get_other (n : node) (cs : Conns) (k a : String) (o : Outcome) (k' : String)
    (h : k' ≠ k) :
    mapGet (SetupNewClient n cs k a o).n.Clients k' = mapGet n.Clients k' := by
  cases o
  · rfl
  · exact mapGet_mapSet_ne _ _ _ _ h
  · exact mapGet_mapSet_ne _ _ _ _ h

theorem setup_attempts (n : node) (cs : Conns) (k a : String) (o : Outcome) :
    attempts (SetupNewClient n cs k a o).events = [(k, a)] := by
  cases o <;> rfl

theorem attempts_append (xs ys : List Event) :
    attempts (xs ++ ys) = attempts xs ++ attempts ys := by
  induction xs with
  | nil => rfl
  | cons e rest ih => cases e <;> simp [attempts, ih]

/-- Unfolding of the loop at an entry that is skipped. -/
theorem greetLoop_skip (n : node) (cs : Conns) (p : KVPair) (rest : List KVPair)
    (out : Nat → Outcome) (h : p.Key = n.Name ∨ mapGet n.Clients p.Key ≠ none) :
    greetLoop n cs (p :: rest) out = greetLoop n cs rest (fun i => out (i + 1)) := by
  conv => lhs; unfold greetLoop
  rcases h with h | h
  · simp only [h, if_true]
  · simp only [h, if_false, ite_self]

/-- Unfolding of the loop at an unseen entry. -/
theorem greetLoop_setup (n : node) (cs : Conns) (p : KVPair) (rest : List KVPair)
    (out : Nat → Outcome) (h1 : p.Key ≠ n.Name) (h2 : mapGet n.Clients p.Key = none) :
    greetLoop n cs (p :: rest) out =
      match (SetupNewClient n cs p.Key p.Value (out 0)).status with
      | .returned =>
          { greetLoop (SetupNewClient n cs p.Key p.Value (out 0)).n
              (SetupNewClient n cs p.Key p.Value (out 0)).conns rest (fun i => out (i + 1)) with
            events := (SetupNewClient n cs p.Key p.Value (out 0)).events ++
              (greetLoop (SetupNewClient n cs p.Key p.Value (out 0)).n
                (SetupNewClient n cs p.Key p.Value (out 0)).conns rest
                (fun i => out (i + 1))).events }
      | _ => SetupNewClient n cs p.Key p.Value (out 0) := by
  conv => lhs; unfold greetLoop
  simp [h1, h2]

/-- The three ways the loop treats its first entry. -/
theorem greetLoop_cases (n : node) (cs : Conns) (p : KVPair) (rest : List KVPair)
    (out : Nat → Outcome) :
    (greetLoop n cs (p :: rest) out = greetLoop n cs rest (fun i => out (i + 1)) ∧
      (p.Key = n.Name ∨ mapGet n.Clients p.Key ≠ none)) ∨
    (p.Key ≠ n.Name ∧ mapGet n.Clients p.Key = none ∧
      (SetupNewClient n cs p.Key p.Value (out 0)).status ≠ .returned ∧
      greetLoop n cs (p :: rest) out = SetupNewClient n cs p.Key p.Value (out 0)) ∨
    (p.Key ≠ n.Name ∧ mapGet n.Clients p.Key = none ∧
      (SetupNewClient n cs p.Key p.Value (out 0)).status = .returned ∧
      greetLoop n cs (p :: rest) out =
        { greetLoop (SetupNewClient n cs p.Key p.Value (out 0)).n
            (SetupNewClient n cs p.Key p.Value (out 0)).conns rest (fun i => out (i + 1)) with
          events := (SetupNewClient n cs p.Key p.Value (out 0)).events ++
            (greetLoop (SetupNewClient n cs p.Key p.Value (out 0)).n
              (SetupNewClient n cs p.Key p.Value (out 0)).conns rest
              (fun i => out (i + 1))).events }) := by
  by_cases h1 : p.Key = n.Name
  · exact Or.inl ⟨greetLoop_skip n cs p rest out (Or.inl h1), Or.inl h1⟩
  · by_cases h2 : mapGet n.Clients p.Key = none
    · right
      have h := greetLoop_setup n cs p rest out h1 h2
      cases hs : (SetupNewClient n cs p.Key p.Value (out 0)).status with
      | returned =>
        right
        rw [hs] at h
        exact ⟨h1, h2, rfl, h⟩
      | fatal =>
        left
        rw [hs] at h
        exact ⟨h1, h2, by simp, h⟩
      | panicked =>
        left
        rw [hs] at h
        exact ⟨h1, h2, by simp, h⟩
    · exact Or.inl ⟨greetLoop_skip n cs p rest out (Or.inr h2), Or.inr h2⟩

/-! ## Stable relations hold along every run -/

theorem stable_greetLoop {R : node → Conns → Result → Prop} (hR : Stable R)
    (l : List KVPair) (n : node) (cs : Conns) (out : Nat → Outcome) :
    R n cs (greetLoop n cs l out) := by
  induction l generalizing n cs out with
  | nil => exact hR.idle _ _ _
  | cons p rest ih =>
    rcases greetLoop_cases n cs p rest out with ⟨h, _⟩ | ⟨h1, h2, _, h⟩ | ⟨h1, h2, hs, h⟩
    · rw [h]
      exact ih n cs _
    · rw [h]
      exact hR.setup n cs _ _ _ h1 h2
    · rw [h]
      exact hR.seq n cs _ _ (hR.setup n cs _ _ _ h1 h2) hs (ih _ _ _)

theorem stable_GreetAllNeighbors {R : node → Conns → Result → Prop} (hR : Stable R)
    (n : node) (cs : Conns) (sdkv : KV) (out : Nat → Outcome) :
    R n cs (GreetAllNeighbors n cs sdkv out) := by
  unfold HelloNode.GreetAllNeighbors
  cases listNeighbors sdkv with
  | error e => exact hR.idle _ _ _
  | ok l => exact stable_greetLoop hR l n cs out

theorem mainLoop_ret (n : node) (cs : Conns) (c : Cycle) (rest : List Cycle)
    (h : (GreetAllNeighbors n cs c.sdkv c.out).status = .returned) :
    mainLoop n cs (c :: rest) =
      (GreetAllNeighbors n cs c.sdkv c.out).andThen
        (mainLoop (GreetAllNeighbors n cs c.sdkv c.out).n
          (GreetAllNeighbors n cs c.sdkv c.out).conns rest) := by
  simp only [mainLoop, h, Result.andThen]

theorem mainLoop_stop (n : node) (cs : Conns) (c : Cycle) (rest : List Cycle)
    (h : (GreetAllNeighbors n cs c.sdkv c.out).status ≠ .returned) :
    mainLoop n cs (c :: rest) = GreetAllNeighbors n cs c.sdkv c.out := by
  cases hs : (GreetAllNeighbors n cs c.sdkv c.out).status with
  | returned => exact absurd hs h
  | fatal => simp only [mainLoop, hs]
  | panicked => simp only [mainLoop, hs]

theorem mainLoop_cons (n : node) (cs : Conns) (c : Cycle) (rest : List Cycle) :
    (mainLoop n cs (c :: rest) = GreetAllNeighbors n cs c.sdkv c.out ∧
      (GreetAllNeighbors n cs c.sdkv c.out).status ≠ .returned) ∨
    (mainLoop n cs (c :: rest) =
        (GreetAllNeighbors n cs c.sdkv c.out).andThen
          (mainLoop (GreetAllNeighbors n cs c.sdkv c.out).n
            (GreetAllNeighbors n cs c.sdkv c.out).conns rest) ∧
      (GreetAllNeighbors n cs c.sdkv c.out).status = .returned) := by
  by_cases hs : (GreetAllNeighbors n cs c.sdkv c.out).status = .returned
  · exact Or.inr ⟨mainLoop_ret n cs c rest hs, hs⟩
  · exact Or.inl ⟨mainLoop_stop n cs c rest hs, hs⟩

theorem stable_mainLoop {R : node → Conns → Result → Prop} (hR : Stable R)
    (cycles : List Cycle) (n : node) (cs : Conns) :
    R n cs (mainLoop n cs cycles) := by
  induction cycles generalizing n cs with
  | nil => exact hR.idle _ _ _
  | cons c rest ih =>
    rcases mainLoop_cons n cs c rest with ⟨h, _⟩ | ⟨h, hs⟩
    · rw [h]
      exact stable_GreetAllNeighbors hR n cs _ _
    · rw [h]
      exact hR.seq n cs _ _ (stable_GreetAllNeighbors hR n cs _ _) hs (ih _ _)

theorem listenerExit_cases (r : Result) :
    listenerExit r = { r with status := .fatal } ∨ listenerExit r = r := by
  cases hs : r.status with
  | returned => left; simp only [listenerExit, hs]
  | fatal => right; simp only [listenerExit, hs]
  | panicked => right; simp only [listenerExit, hs]

theorem Start_serving (n : node) (d : Directory) (cycles : List Cycle) :
    Start n d .serving true true cycles = mainLoop { n with Clients := [] } [] cycles := rfl

/-- A listener that fails before the registration is done ends the process
there, whatever the directory and the cycles would have brought. -/
theorem Start_listener_fails (n : node) (d : Directory) (clientOk putOk : Bool)
    (cycles : List Cycle) :
    Start n d (.listenErr 0) clientOk putOk cycles = ⟨.fatal, { n with Clients := [] }, [], []⟩ ∧
    Start n d (.serveErr 0) clientOk putOk cycles = ⟨.fatal, { n with Clients := [] }, [], []⟩ :=
  ⟨rfl, rfl⟩

theorem Start_eq (n : node) (d : Directory) (ls : Listener) (clientOk putOk : Bool)
    (cycles : List Cycle) :
    (∃ cs', Start n d ls clientOk putOk cycles = mainLoop { n with Clients := [] } [] cs') ∨
    (∃ cs', Start n d ls clientOk putOk cycles =
      listenerExit (mainLoop { n with Clients := [] } [] cs')) ∨
    (∃ s, Start n d ls clientOk putOk cycles = ⟨s, { n with Clients := [] }, [], []⟩) := by
  have hreg : (registerMyselfToConsul { n with Clients := [] } d clientOk putOk).1 = .returned ∨
      (registerMyselfToConsul { n with Clients := [] } d clientOk putOk).1 = .panicked := by
    cases clientOk <;> cases putOk <;> simp [registerMyselfToConsul]
  cases hl : StartListening ls with
  | none =>
    rcases hreg with h | h
    · exact Or.inl ⟨cycles, by simp only [Start, hl, h]⟩
    · exact Or.inr (Or.inr ⟨.panicked, by simp only [Start, hl, h]⟩)
  | some step =>
    cases step with
    | zero => exact Or.inr (Or.inr ⟨.fatal, by simp only [Start, hl]⟩)
    | succ k =>
      rcases hreg with h | h
      · by_cases hk : k ≤ cycles.length
        · exact Or.inr (Or.inl ⟨cycles.take k, by simp only [Start, hl, h, hk, if_true]⟩)
        · exact Or.inl ⟨cycles, by simp only [Start, hl, h, hk, if_false]⟩
      · exact Or.inr (Or.inr ⟨.panicked, by simp only [Start, hl, h]⟩)

theorem stable_Start {R : node → Conns → Result → Prop} (hR : Stable R)
    (n : node) (d : Directory) (ls : Listener) (clientOk putOk : Bool) (cycles : List Cycle) :
    R { n with Clients := [] } [] (Start n d ls clientOk putOk cycles) := by
  rcases Start_eq n d ls clientOk putOk cycles with ⟨cs', h⟩ | ⟨cs', h⟩ | ⟨s, h⟩
  · rw [h]
    exact stable_mainLoop hR cs' _ _
  · rw [h]
    rcases listenerExit_cases (mainLoop { n with Clients := [] } [] cs') with e | e
    · rw [e]
      exact hR.exit _ _ _ (stable_mainLoop hR cs' _ _)
    · rw [e]
      exact stable_mainLoop hR cs' _ _
  · rw [h]
    exact hR.idle _ _ _

/-! ## Facts kept by every run -/

theorem closeConn_fresh (cs : Conns) : closeConn (cs ++ [true]) cs.length = cs ++ [false] := by
  induction cs with
  | nil => rfl
  | cons b rest ih =>
    simp only [closeConn] at ih
    simp [closeConn, ih]

theorem getElem?_append_closed (cs : Conns) (b : Bool) (c : Nat) (h : cs[c]? = some false) :
    (cs ++ [b])[c]? = some false := by
  have hlt : c < cs.length := by
    by_contra hge
    rw [List.getElem?_eq_none (Nat.le_of_not_lt hge)] at h
    cases h
  rw [List.getElem?_append_left hlt]
  exact h

/-- The own name and the names of the fields other than the registry never change. -/
theorem stable_identity :
    Stable (fun n _ r => r.n.Name = n.Name ∧ r.n.Addr = n.Addr ∧ r.n.SDAddress = n.SDAddress) := by
  refine ⟨fun _ _ _ => ⟨rfl, rfl, rfl⟩, ?_, ?_, fun _ _ _ h => h⟩
  · intro n cs k a o _ _
    cases o <;> exact ⟨rfl, rfl, rfl⟩
  · intro n cs r r2 h _ h2
    exact ⟨h2.1.trans h.1, h2.2.1.trans h.2.1, h2.2.2.trans h.2.2⟩

/-- Entries of the registry are kept with their handle. -/
theorem stable_frame :
    Stable (fun n _ r => ∀ k h, mapGet n.Clients k = some h → mapGet r.n.Clients k = some h) := by
  refine ⟨fun _ _ _ _ _ h => h, ?_, ?_, fun _ _ _ h => h⟩
  · intro n cs k a o _ habs k' h hk'
    have hne : k' ≠ k := by
      intro e
      rw [e, habs] at hk'
      cases hk'
    rw [setup_get_other n cs k a o k' hne]
    exact hk'
  · intro n cs r r2 h _ h2 k c hk
    exact h2 k c (h k c hk)

/-- The own name is never registered and never dialled. -/
theorem stable_self :
    Stable (fun n _ r => r.n.Name = n.Name ∧
      (mapGet n.Clients n.Name = none → mapGet r.n.Clients n.Name = none) ∧
      ∀ p ∈ attempts r.events, p.1 ≠ n.Name) := by
  refine ⟨fun _ _ _ => ⟨rfl, fun h => h, by simp [attempts]⟩, ?_, ?_, fun _ _ _ h => h⟩
  · intro n cs k a o hk _
    refine ⟨setup_name n cs k a o, ?_, ?_⟩
    · intro h
      rw [setup_get_other n cs k a o n.Name (fun e => hk e.symm)]
      exact h
    · intro p hp
      rw [setup_attempts] at hp
      simp only [List.mem_singleton] at hp
      rw [hp]
      exact hk
  · intro n cs r r2 h _ h2
    refine ⟨h2.1.trans h.1, ?_, ?_⟩
    · intro h0
      have h1 := h.2.1 h0
      rw [← h.1] at h1
      have h3 := h2.2.1 h1
      rw [h.1] at h3
      exact h3
    · intro p hp
      simp only [Result.andThen, attempts_append, List.mem_append] at hp
      rcases hp with hp | hp
      · exact h.2.2 p hp
      · have := h2.2.2 p hp
        rw [h.1] at this
        exact this

/-- After a run that returns, every registered handle is closed, if it was so before. -/
theorem stable_closed :
    Stable (fun n cs r => allClosed n.Clients cs → r.status = .returned →
      allClosed r.n.Clients r.conns) := by
  refine ⟨fun _ _ _ h _ => h, ?_, ?_, fun _ _ _ _ _ hs => by cases hs⟩
  · intro n cs k a o _ _ hcl hs
    cases o with
    | dialErr => cases hs
    | greetErr => cases hs
    | ok reply =>
      intro k' c hk'
      show (closeConn (cs ++ [true]) cs.length)[c]? = some false
      rw [closeConn_fresh]
      by_cases hkk : k' = k
      · subst hkk
        have : mapGet (mapSet n.Clients k' cs.length) k' = some c := hk'
        rw [mapGet_mapSet_self] at this
        cases this
        simp
      · have : mapGet (mapSet n.Clients k cs.length) k' = some c := hk'
        rw [mapGet_mapSet_ne _ _ _ _ hkk] at this
        exact getElem?_append_closed cs false c (hcl k' c this)
  · intro n cs r r2 h hs h2 hcl hs2
    exact h2 (h hcl hs) hs2

/-! ## Self-exclusion -/

/-- C4: in every state reached from `Start` (registry initially empty) through
any sequence of cycles, whatever the directory answers, the outcomes of
connect and greet and the fate of the listening server, the node's own Name is
not a key of the registry, and no connection attempt was made to a peer named
like the node. -/
theorem self_exclusion (n : node) (d : Directory) (ls : Listener) (clientOk putOk : Bool)
    (cycles : List Cycle) :
    mapGet (Start n d ls clientOk putOk cycles).n.Clients n.Name = none ∧
    ∀ p ∈ attempts (Start n d ls clientOk putOk cycles).events, p.1 ≠ n.Name := by
  have h := stable_Start stable_self n d ls clientOk putOk cycles
  simp only at h
  exact ⟨h.2.1 rfl, h.2.2⟩

/-! ## Entries are never removed or replaced -/

/-- C8: a name that is a key of the registry before a cycle is still a key
after it, with the same handle, whatever the listing and the outcomes; the same
holds over any sequence of cycles. -/
theorem entries_kept (n : node) (cs : Conns) (c : Cycle) (cycles : List Cycle)
    (k : String) (h : Handle) (hk : mapGet n.Clients k = some h) :
    mapGet (GreetAllNeighbors n cs c.sdkv c.out).n.Clients k = some h ∧
    mapGet (mainLoop n cs cycles).n.Clients k = some h :=
  ⟨stable_GreetAllNeighbors stable_frame n cs c.sdkv c.out k h hk,
   stable_mainLoop stable_frame cycles n cs k h hk⟩

/-- C8 (witness): the entry of "Node2" survives cycles that list it again with
another address, whether the other peer listed can be reached or not. -/
theorem entries_kept_witness :
    mapGet (⟨"Node1", "a", "sd", [("Node2", 0)]⟩ : node).Clients "Node2" = some 0 ∧
    mapGet (GreetAllNeighbors ⟨"Node1", "a", "sd", [("Node2", 0)]⟩ [false]
      (staticKV [⟨"Node2", "x"⟩, ⟨"Node3", "c"⟩]) (fun _ => .ok ⟨"hi"⟩)).n.Clients "Node2"
      = some 0 ∧
    mapGet (mainLoop ⟨"Node1", "a", "sd", [("Node2", 0)]⟩ [false]
      [⟨staticKV [⟨"Node2", "x"⟩, ⟨"Node3", "c"⟩], fun _ => .greetErr⟩]).n.Clients "Node2"
      = some 0 :=
  ⟨rfl, entries_kept ⟨"Node1", "a", "sd", [("Node2", 0)]⟩ [false]
    ⟨staticKV [⟨"Node2", "x"⟩, ⟨"Node3", "c"⟩], fun _ => .ok ⟨"hi"⟩⟩
    [⟨staticKV [⟨"Node2", "x"⟩, ⟨"Node3", "c"⟩], fun _ => .greetErr⟩] "Node2" 0 rfl⟩

/-! ## Registered handles are closed -/

/-- C10: when `SetupNewClient` returns normally, it has dialled, greeted and
then closed the connection, in that order, and the handle stored under the
peer's name refers to that closed connection; and in every state that `Start`
reaches at the end of a cycle that returned, every handle of the registry refers
to a closed connection. -/
theorem registered_handles_closed (n : node) (cs : Conns) (peerName peerAddr : String)
    (o : Outcome) (n0 : node) (d : Directory) (ls : Listener) (clientOk putOk : Bool)
    (cycles : List Cycle)
    (hret : (SetupNewClient n cs peerName peerAddr o).status = .returned)
    (hrun : (Start n0 d ls clientOk putOk cycles).status = .returned) :
    (∃ c, mapGet (SetupNewClient n cs peerName peerAddr o).n.Clients peerName = some c ∧
      (SetupNewClient n cs peerName peerAddr o).conns[c]? = some false ∧
      (SetupNewClient n cs peerName peerAddr o).events =
        [.dial peerName peerAddr true, .greet peerName n.Name true, .close c]) ∧
    allClosed (Start n0 d ls clientOk putOk cycles).n.Clients (Start n0 d ls clientOk putOk cycles).conns := by
  constructor
  · cases o with
    | dialErr => cases hret
    | greetErr => cases hret
    | ok reply =>
      refine ⟨cs.length, mapGet_mapSet_self _ _ _, ?_, rfl⟩
      show (closeConn (cs ++ [true]) cs.length)[cs.length]? = some false
      rw [closeConn_fresh]
      simp
  · have h := stable_Start stable_closed n0 d ls clientOk putOk cycles
    simp only at h
    apply h _ hrun
    intro k c hk
    cases hk

/-- C10 (witness): one peer set up from the empty registry, and a run of
`Start` with two cycles over a listing of three nodes. -/
theorem registered_handles_closed_witness :
    (SetupNewClient ⟨"Node1", "localhost:5001", "localhost:8500", []⟩ [] "Node2" "localhost:5002" (.ok ⟨"Hello from Node2"⟩)).status
      = .returned ∧
    (Start ⟨"Node1", "localhost:5001", "localhost:8500", []⟩ [] .serving true true
      [⟨staticKV [⟨"Node1", "localhost:5001"⟩, ⟨"Node2", "localhost:5002"⟩, ⟨"Node3", "localhost:5003"⟩], fun _ => .ok ⟨"hi"⟩⟩,
       ⟨staticKV [⟨"Node1", "localhost:5001"⟩, ⟨"Node2", "localhost:5002"⟩, ⟨"Node3", "localhost:5003"⟩], fun _ => .ok ⟨"hi"⟩⟩]).status
      = .returned ∧
    (∃ c, mapGet (SetupNewClient ⟨"Node1", "localhost:5001", "localhost:8500", []⟩ [] "Node2" "localhost:5002"
        (.ok ⟨"Hello from Node2"⟩)).n.Clients "Node2" = some c ∧
      (SetupNewClient ⟨"Node1", "localhost:5001", "localhost:8500", []⟩ [] "Node2" "localhost:5002"
        (.ok ⟨"Hello from Node2"⟩)).conns[c]? = some false ∧
      (SetupNewClient ⟨"Node1", "localhost:5001", "localhost:8500", []⟩ [] "Node2" "localhost:5002"
        (.ok ⟨"Hello from Node2"⟩)).events =
        [.dial "Node2" "localhost:5002" true, .greet "Node2" "Node1" true, .close c]) ∧
    allClosed
      (Start ⟨"Node1", "localhost:5001", "localhost:8500", []⟩ [] .serving true true
        [⟨staticKV [⟨"Node1", "localhost:5001"⟩, ⟨"Node2", "localhost:5002"⟩, ⟨"Node3", "localhost:5003"⟩], fun _ => .ok ⟨"hi"⟩⟩,
         ⟨staticKV [⟨"Node1", "localhost:5001"⟩, ⟨"Node2", "localhost:5002"⟩, ⟨"Node3", "localhost:5003"⟩],
           fun _ => .ok ⟨"hi"⟩⟩]).n.Clients
      (Start ⟨"Node1", "localhost:5001", "localhost:8500", []⟩ [] .serving true true
        [⟨staticKV [⟨"Node1", "localhost:5001"⟩, ⟨"Node2", "localhost:5002"⟩, ⟨"Node3", "localhost:5003"⟩], fun _ => .ok ⟨"hi"⟩⟩,
         ⟨staticKV [⟨"Node1", "localhost:5001"⟩, ⟨"Node2", "localhost:5002"⟩, ⟨"Node3", "localhost:5003"⟩],
           fun _ => .ok ⟨"hi"⟩⟩]).conns :=
  ⟨rfl, by decide,
    registered_handles_closed ⟨"Node1", "localhost:5001", "localhost:8500", []⟩ [] "Node2" "localhost:5002" (.ok ⟨"Hello from Node2"⟩)
      ⟨"Node1", "localhost:5001", "localhost:8500", []⟩ [] .serving true true
      [⟨staticKV [⟨"Node1", "localhost:5001"⟩, ⟨"Node2", "localhost:5002"⟩, ⟨"Node3", "localhost:5003"⟩], fun _ => .ok ⟨"hi"⟩⟩,
       ⟨staticKV [⟨"Node1", "localhost:5001"⟩, ⟨"Node2", "localhost:5002"⟩, ⟨"Node3", "localhost:5003"⟩], fun _ => .ok ⟨"hi"⟩⟩]
      rfl (by decide)⟩

/-! ## Registration and greeting -/

/-- A registered peer was dialled with success, in this run or before it; after
a run that returns it was also greeted with success, in this run or before it. -/
theorem stable_evidence :
    Stable (fun n _ r =>
      (∀ k, mapGet r.n.Clients k ≠ none →
        mapGet n.Clients k ≠ none ∨ ∃ a, Event.dial k a true ∈ r.events) ∧
      (r.status = .returned → ∀ k, mapGet r.n.Clients k ≠ none →
        mapGet n.Clients k ≠ none ∨ ∃ q, Event.greet k q true ∈ r.events)) := by
  refine ⟨fun _ _ _ => ⟨fun _ h => Or.inl h, fun _ _ h => Or.inl h⟩, ?_, ?_,
    fun _ _ _ h => ⟨h.1, fun hs => by cases hs⟩⟩
  · intro n cs k a o _ _
    constructor
    · intro k' hk'
      by_cases hkk : k' = k
      · subst hkk
        cases o with
        | dialErr => exact Or.inl hk'
        | greetErr => exact Or.inr ⟨a, by simp [SetupNewClient]⟩
        | ok reply => exact Or.inr ⟨a, by simp [SetupNewClient]⟩
      · rw [setup_get_other n cs k a o k' hkk] at hk'
        exact Or.inl hk'
    · intro hs k' hk'
      by_cases hkk : k' = k
      · subst hkk
        cases o with
        | dialErr => cases hs
        | greetErr => cases hs
        | ok reply => exact Or.inr ⟨n.Name, by simp [SetupNewClient]⟩
      · rw [setup_get_other n cs k a o k' hkk] at hk'
        exact Or.inl hk'
  · intro n cs r r2 h hs h2
    constructor
    · intro k hk
      rcases h2.1 k hk with h3 | ⟨a, ha⟩
      · rcases h.1 k h3 with h4 | ⟨a, ha⟩
        · exact Or.inl h4
        · exact Or.inr ⟨a, by simp [Result.andThen, ha]⟩
      · exact Or.inr ⟨a, by simp [Result.andThen, ha]⟩
    · intro hs2 k hk
      rcases h2.2 hs2 k hk with h3 | ⟨q, hq⟩
      · rcases h.2 hs k h3 with h4 | ⟨q, hq⟩
        · exact Or.inl h4
        · exact Or.inr ⟨q, by simp [Result.andThen, hq]⟩
      · exact Or.inr ⟨q, by simp [Result.andThen, hq]⟩

/-- C2 (counterexample): the node "Node1" starts, and in its first cycle the
greet to "Node2" fails.  The node ends there (`log.Fatalf`) in a state whose
registry holds "Node2", although the only greet made to it failed. -/
theorem registered_without_greeting :
    Start ⟨"Node1", "localhost:5001", "localhost:8500", []⟩ [] .serving true true
      [⟨staticKV [⟨"Node1", "localhost:5001"⟩, ⟨"Node2", "localhost:5002"⟩],
        fun _ => .greetErr⟩] =
    ⟨.fatal, ⟨"Node1", "localhost:5001", "localhost:8500", [("Node2", 0)]⟩, [true],
      [.dial "Node2" "localhost:5002" true, .greet "Node2" "Node1" false]⟩ := by
  decide

/-- C2 (amended): in every state reached from `Start`, a name is a key of the
registry only if a dial to that peer has succeeded before, and, when the last
cycle returned, only if a greet to that peer has succeeded before.  In
`SetupNewClient`, a failed dial ends the node with the registry unchanged; a
failed greet ends the node with the peer already stored in the registry. -/
theorem registered_only_after_dial (n : node) (d : Directory) (ls : Listener)
    (clientOk putOk : Bool) (cycles : List Cycle) (m : node) (cs : Conns) (peerName peerAddr : String) (k : String)
    (hk : mapGet (Start n d ls clientOk putOk cycles).n.Clients k ≠ none) :
    (∃ a, Event.dial k a true ∈ (Start n d ls clientOk putOk cycles).events) ∧
    ((Start n d ls clientOk putOk cycles).status = .returned →
      ∃ q, Event.greet k q true ∈ (Start n d ls clientOk putOk cycles).events) ∧
    SetupNewClient m cs peerName peerAddr .dialErr =
      ⟨.fatal, m, cs, [.dial peerName peerAddr false]⟩ ∧
    (SetupNewClient m cs peerName peerAddr .greetErr).status = .fatal ∧
    mapGet (SetupNewClient m cs peerName peerAddr .greetErr).n.Clients peerName
      = some cs.length := by
  have h := stable_Start stable_evidence n d ls clientOk putOk cycles
  simp only at h
  refine ⟨?_, ?_, rfl, rfl, mapGet_mapSet_self _ _ _⟩
  · rcases h.1 k hk with h1 | h1
    · exact absurd rfl h1
    · exact h1
  · intro hs
    rcases h.2 hs k hk with h1 | h1
    · exact absurd rfl h1
    · exact h1

/-- C2 (witness): the run of the counterexample, where "Node2" is registered
after a dial that succeeded. -/
theorem registered_only_after_dial_witness :
    mapGet (Start ⟨"Node1", "localhost:5001", "localhost:8500", []⟩ [] .serving true true
      [⟨staticKV [⟨"Node1", "localhost:5001"⟩, ⟨"Node2", "localhost:5002"⟩],
        fun _ => .greetErr⟩]).n.Clients "Node2" ≠ none ∧
    ((∃ a, Event.dial "Node2" a true ∈
        (Start ⟨"Node1", "localhost:5001", "localhost:8500", []⟩ [] .serving true true
          [⟨staticKV [⟨"Node1", "localhost:5001"⟩, ⟨"Node2", "localhost:5002"⟩],
            fun _ => .greetErr⟩]).events) ∧
    ((Start ⟨"Node1", "localhost:5001", "localhost:8500", []⟩ [] .serving true true
          [⟨staticKV [⟨"Node1", "localhost:5001"⟩, ⟨"Node2", "localhost:5002"⟩],
            fun _ => .greetErr⟩]).status = .returned →
      ∃ q, Event.greet "Node2" q true ∈
        (Start ⟨"Node1", "localhost:5001", "localhost:8500", []⟩ [] .serving true true
          [⟨staticKV [⟨"Node1", "localhost:5001"⟩, ⟨"Node2", "localhost:5002"⟩],
            fun _ => .greetErr⟩]).events) ∧
    SetupNewClient ⟨"Node1", "a", "sd", []⟩ [] "Node2" "b" .dialErr =
      ⟨.fatal, ⟨"Node1", "a", "sd", []⟩, [], [.dial "Node2" "b" false]⟩ ∧
    (SetupNewClient ⟨"Node1", "a", "sd", []⟩ [] "Node2" "b" .greetErr).status = .fatal ∧
    mapGet (SetupNewClient ⟨"Node1", "a", "sd", []⟩ [] "Node2" "b" .greetErr).n.Clients "Node2"
      = some ([] : Conns).length) :=
  ⟨by decide,
    registered_only_after_dial ⟨"Node1", "localhost:5001", "localhost:8500", []⟩ [] .serving
      true true
      [⟨staticKV [⟨"Node1", "localhost:5001"⟩, ⟨"Node2", "localhost:5002"⟩],
        fun _ => .greetErr⟩]
      ⟨"Node1", "a", "sd", []⟩ [] "Node2" "b" "Node2" (by decide)⟩

/-! ## Failures of connect and greet -/

theorem andThen_idle (n : node) (cs : Conns) (r : Result) :
    (⟨.returned, n, cs, []⟩ : Result).andThen r = r := by
  cases r
  rfl

theorem andThen_assoc (a b c : Result) : (a.andThen b).andThen c = a.andThen (b.andThen c) := by
  simp [Result.andThen, List.append_assoc]

theorem setup_failed (n : node) (cs : Conns) (k a : String) (o : Outcome)
    (h : o = .dialErr ∨ o = .greetErr) : (SetupNewClient n cs k a o).status = .fatal := by
  rcases h with h | h <;> subst h <;> rfl

/-- The loop over a listing in two parts: the second part runs from the state
the first part returned in, and is not run when the first part did not return. -/
theorem greetLoop_append (pre post : List KVPair) (n : node) (cs : Conns) (out : Nat → Outcome) :
    greetLoop n cs (pre ++ post) out =
      if (greetLoop n cs pre out).status = .returned then
        (greetLoop n cs pre out).andThen
          (greetLoop (greetLoop n cs pre out).n (greetLoop n cs pre out).conns post
            (fun i => out (i + pre.length)))
      else greetLoop n cs pre out := by
  induction pre generalizing n cs out with
  | nil =>
    simp only [List.nil_append, List.length_nil, Nat.add_zero]
    rw [show greetLoop n cs [] out = ⟨.returned, n, cs, []⟩ from by unfold greetLoop; rfl]
    simp [andThen_idle]
  | cons p rest ih =>
    have hshift : (fun i => out (i + (p :: rest).length)) =
        (fun i => (fun j => out (j + 1)) (i + rest.length)) := rfl
    rw [hshift]
    rcases greetLoop_cases n cs p rest out with ⟨h, hc⟩ | ⟨h1, h2, hs, h⟩ | ⟨h1, h2, hs, h⟩
    · rw [h, List.cons_append, greetLoop_skip n cs p (rest ++ post) out hc]
      exact ih n cs _
    · rw [h, List.cons_append, greetLoop_setup n cs p (rest ++ post) out h1 h2]
      cases hst : (SetupNewClient n cs p.Key p.Value (out 0)).status with
      | returned => exact absurd hst hs
      | fatal => simp
      | panicked => simp
    · rw [h, List.cons_append, greetLoop_setup n cs p (rest ++ post) out h1 h2, hs]
      simp only
      rw [ih]
      by_cases hr : (greetLoop (SetupNewClient n cs p.Key p.Value (out 0)).n
          (SetupNewClient n cs p.Key p.Value (out 0)).conns rest
          (fun i => out (i + 1))).status = .returned
      · simp [hr, Result.andThen, List.append_assoc]
      · simp [hr]

/-- Entries are kept, and a peer greeted with success in a run was absent
before the run and is present after it. -/
theorem stable_greeted :
    Stable (fun n _ r =>
      (∀ k h, mapGet n.Clients k = some h → mapGet r.n.Clients k = some h) ∧
      ∀ k q, Event.greet k q true ∈ r.events →
        mapGet n.Clients k = none ∧ mapGet r.n.Clients k ≠ none) := by
  refine ⟨fun _ _ _ => ⟨fun _ _ h => h, by simp⟩, ?_, ?_, fun _ _ _ h => h⟩
  · intro n cs k a o hk habs
    refine ⟨stable_frame.setup n cs k a o hk habs, ?_⟩
    intro k' q hq
    cases o with
    | dialErr => simp [SetupNewClient] at hq
    | greetErr => simp [SetupNewClient] at hq
    | ok reply =>
      simp only [SetupNewClient, List.mem_cons, Event.greet.injEq, List.mem_singleton,
        reduceCtorEq, false_or, or_false, List.not_mem_nil] at hq
      obtain ⟨hkk, _⟩ := hq
      subst hkk
      refine ⟨habs, ?_⟩
      show mapGet (mapSet n.Clients k' cs.length) k' ≠ none
      rw [mapGet_mapSet_self]
      simp
  · intro n cs r r2 h _ h2
    refine ⟨fun k c hk => h2.1 k c (h.1 k c hk), ?_⟩
    intro k q hq
    simp only [Result.andThen, List.mem_append] at hq
    rcases hq with hq | hq
    · obtain ⟨h3, h4⟩ := h.2 k q hq
      refine ⟨h3, ?_⟩
      cases hg : mapGet r.n.Clients k with
      | none => exact absurd hg h4
      | some c =>
        show mapGet r2.n.Clients k ≠ none
        rw [h2.1 k c hg]
        simp
    · obtain ⟨h3, h4⟩ := h2.2 k q hq
      refine ⟨?_, h4⟩
      cases hg : mapGet n.Clients k with
      | none => rfl
      | some c =>
        rw [h.1 k c hg] at h3
        cases h3

/-- The cycle at the first failing attempt: the loop has returned over `pre`,
the next entry is unseen, and its connect or greet fails. -/
theorem greetLoop_fails_at (pre post : List KVPair) (kv : KVPair) (n : node) (cs : Conns)
    (out : Nat → Outcome)
    (hpre : (greetLoop n cs pre out).status = .returned)
    (hk : kv.Key ≠ n.Name)
    (habs : mapGet (greetLoop n cs pre out).n.Clients kv.Key = none)
    (hfail : out pre.length = .dialErr ∨ out pre.length = .greetErr) :
    greetLoop n cs (pre ++ kv :: post) out =
      (greetLoop n cs pre out).andThen
        (SetupNewClient (greetLoop n cs pre out).n (greetLoop n cs pre out).conns
          kv.Key kv.Value (out pre.length)) := by
  rw [greetLoop_append, if_pos hpre]
  have hname : (greetLoop n cs pre out).n.Name = n.Name :=
    (stable_greetLoop stable_identity pre n cs out).1
  have hk' : kv.Key ≠ (greetLoop n cs pre out).n.Name := by
    rw [hname]
    exact hk
  rw [greetLoop_setup _ _ kv post _ hk' habs]
  simp only [Nat.zero_add]
  rw [setup_failed _ _ _ _ _ hfail]

/-- C1 (counterexample): the node "Node1" runs two cycles over the listing
Node1, Node2, Node3.  In the first cycle the dial to "Node2" fails; in the
second every attempt would succeed.  The node ends at the failed dial
(`log.Fatalf`): "Node3" is never attempted, the second cycle is never run, and
the registry stays empty. -/
theorem failed_dial_ends_node :
    Start ⟨"Node1", "localhost:5001", "localhost:8500", []⟩ [] .serving true true
      [⟨staticKV [⟨"Node1", "localhost:5001"⟩, ⟨"Node2", "localhost:5002"⟩,
          ⟨"Node3", "localhost:5003"⟩], fun _ => .dialErr⟩,
       ⟨staticKV [⟨"Node1", "localhost:5001"⟩, ⟨"Node2", "localhost:5002"⟩,
          ⟨"Node3", "localhost:5003"⟩], fun _ => .ok ⟨"Hello"⟩⟩] =
    ⟨.fatal, ⟨"Node1", "localhost:5001", "localhost:8500", []⟩, [],
      [.dial "Node2" "localhost:5002" false]⟩ := by
  decide

/-- C1 (amended): a failure of connect or greet ends the node.  When the cycle
has returned over the entries `pre` of the listing, the next entry `kv` is an
unseen peer and its connect or greet fails, the cycle ends fatally at that
attempt: its connection attempts are those made over `pre` followed by the one
to `kv`, none is made to the entries after it, and the main loop ends with this
cycle, so no later cycle runs.  In every cycle, a peer greeted with success was
absent from the registry before the cycle and is present after it. -/
theorem failed_attempt_is_fatal (pre post : List KVPair) (kv : KVPair) (n : node) (cs : Conns)
    (out : Nat → Outcome) (later : List Cycle)
    (hpre : (GreetAllNeighbors n cs (staticKV pre) out).status = .returned)
    (hk : kv.Key ≠ n.Name)
    (habs : mapGet (GreetAllNeighbors n cs (staticKV pre) out).n.Clients kv.Key = none)
    (hfail : out pre.length = .dialErr ∨ out pre.length = .greetErr) :
    (GreetAllNeighbors n cs (staticKV (pre ++ kv :: post)) out).status = .fatal ∧
    attempts (GreetAllNeighbors n cs (staticKV (pre ++ kv :: post)) out).events =
      attempts (GreetAllNeighbors n cs (staticKV pre) out).events ++ [(kv.Key, kv.Value)] ∧
    mainLoop n cs (⟨staticKV (pre ++ kv :: post), out⟩ :: later) =
      GreetAllNeighbors n cs (staticKV (pre ++ kv :: post)) out ∧
    ∀ (c : Cycle) (k q : String),
      Event.greet k q true ∈ (GreetAllNeighbors n cs c.sdkv c.out).events →
      mapGet n.Clients k = none ∧
      mapGet (GreetAllNeighbors n cs c.sdkv c.out).n.Clients k ≠ none := by
  have hrun : GreetAllNeighbors n cs (staticKV (pre ++ kv :: post)) out =
      (greetLoop n cs pre out).andThen
        (SetupNewClient (greetLoop n cs pre out).n (greetLoop n cs pre out).conns
          kv.Key kv.Value (out pre.length)) :=
    greetLoop_fails_at pre post kv n cs out hpre hk habs hfail
  have hst : (GreetAllNeighbors n cs (staticKV (pre ++ kv :: post)) out).status = .fatal := by
    rw [hrun]
    exact setup_failed _ _ _ _ _ hfail
  refine ⟨hst, ?_, ?_, ?_⟩
  · rw [hrun]
    show attempts ((greetLoop n cs pre out).events ++ _) = attempts (greetLoop n cs pre out).events ++ _
    rw [attempts_append, setup_attempts]
  · apply mainLoop_stop
    show (GreetAllNeighbors n cs (staticKV (pre ++ kv :: post)) out).status ≠ .returned
    rw [hst]
    simp
  · intro c k q hq
    exact (stable_GreetAllNeighbors stable_greeted n cs c.sdkv c.out).2 k q hq

/-- C1 (witness): "Node2" is set up, then the greet to "Node3" fails and
"Node4" is never attempted. -/
theorem failed_attempt_is_fatal_witness :
    (GreetAllNeighbors ⟨"Node1", "a", "sd", []⟩ []
      (staticKV [⟨"Node1", "a"⟩, ⟨"Node2", "b"⟩])
      (fun i => if i = 2 then .greetErr else .ok ⟨"Hello"⟩)).status = .returned ∧
    (⟨"Node3", "c"⟩ : KVPair).Key ≠ (⟨"Node1", "a", "sd", []⟩ : node).Name ∧
    mapGet (GreetAllNeighbors ⟨"Node1", "a", "sd", []⟩ []
      (staticKV [⟨"Node1", "a"⟩, ⟨"Node2", "b"⟩])
      (fun i => if i = 2 then .greetErr else .ok ⟨"Hello"⟩)).n.Clients
      (⟨"Node3", "c"⟩ : KVPair).Key = none ∧
    (fun i => if i = 2 then Outcome.greetErr else Outcome.ok ⟨"Hello"⟩)
      [(⟨"Node1", "a"⟩ : KVPair), ⟨"Node2", "b"⟩].length = Outcome.greetErr ∧
    (GreetAllNeighbors ⟨"Node1", "a", "sd", []⟩ []
      (staticKV ([⟨"Node1", "a"⟩, ⟨"Node2", "b"⟩] ++ ⟨"Node3", "c"⟩ :: [⟨"Node4", "d"⟩]))
      (fun i => if i = 2 then .greetErr else .ok ⟨"Hello"⟩)).status = .fatal ∧
    attempts (GreetAllNeighbors ⟨"Node1", "a", "sd", []⟩ []
      (staticKV ([⟨"Node1", "a"⟩, ⟨"Node2", "b"⟩] ++ ⟨"Node3", "c"⟩ :: [⟨"Node4", "d"⟩]))
      (fun i => if i = 2 then .greetErr else .ok ⟨"Hello"⟩)).events =
      attempts (GreetAllNeighbors ⟨"Node1", "a", "sd", []⟩ []
        (staticKV [⟨"Node1", "a"⟩, ⟨"Node2", "b"⟩])
        (fun i => if i = 2 then .greetErr else .ok ⟨"Hello"⟩)).events ++
        [((⟨"Node3", "c"⟩ : KVPair).Key, (⟨"Node3", "c"⟩ : KVPair).Value)] ∧
    mainLoop ⟨"Node1", "a", "sd", []⟩ []
      (⟨staticKV ([⟨"Node1", "a"⟩, ⟨"Node2", "b"⟩] ++ ⟨"Node3", "c"⟩ :: [⟨"Node4", "d"⟩]),
        fun i => if i = 2 then .greetErr else .ok ⟨"Hello"⟩⟩ ::
        [⟨staticKV [⟨"Node3", "c"⟩], fun _ => .ok ⟨"Hello"⟩⟩]) =
      GreetAllNeighbors ⟨"Node1", "a", "sd", []⟩ []
        (staticKV ([⟨"Node1", "a"⟩, ⟨"Node2", "b"⟩] ++ ⟨"Node3", "c"⟩ :: [⟨"Node4", "d"⟩]))
        (fun i => if i = 2 then .greetErr else .ok ⟨"Hello"⟩) :=
  have h := failed_attempt_is_fatal [⟨"Node1", "a"⟩, ⟨"Node2", "b"⟩] [⟨"Node4", "d"⟩]
    ⟨"Node3", "c"⟩ ⟨"Node1", "a", "sd", []⟩ [] (fun i => if i = 2 then .greetErr else .ok ⟨"Hello"⟩)
    [⟨staticKV [⟨"Node3", "c"⟩], fun _ => .ok ⟨"Hello"⟩⟩]
    (by decide) (by decide) (by decide) (Or.inr (by decide))
  ⟨by decide, by decide, by decide, by decide, h.1, h.2.1, h.2.2.1⟩

/-! ## The unseen set -/

theorem unseenSet_skip (self : String) (known : List String) (p : KVPair) (rest : List KVPair)
    (h : p.Key = self ∨ p.Key ∈ known) :
    unseenSet self known (p :: rest) = unseenSet self known rest := by
  simp only [unseenSet, h, if_true]

theorem unseenSet_keep (self : String) (known : List String) (p : KVPair) (rest : List KVPair)
    (h : ¬ (p.Key = self ∨ p.Key ∈ known)) :
    unseenSet self known (p :: rest) = p :: unseenSet self (p.Key :: known) rest := by
  simp only [unseenSet, h, if_false]

theorem unseenSet_key_mem (self : String) (l : List KVPair) (known : List String) (k : String) :
    k ∈ (unseenSet self known l).map KVPair.Key ↔
      k ∈ l.map KVPair.Key ∧ k ≠ self ∧ k ∉ known := by
  induction l generalizing known with
  | nil => simp [unseenSet]
  | cons p rest ih =>
    by_cases h : p.Key = self ∨ p.Key ∈ known
    · rw [unseenSet_skip self known p rest h, ih]
      simp only [List.map_cons, List.mem_cons]
      constructor
      · rintro ⟨h1, h2, h3⟩
        exact ⟨Or.inr h1, h2, h3⟩
      · rintro ⟨h1 | h1, h2, h3⟩
        · subst h1
          rcases h with h | h
          · exact absurd h h2
          · exact absurd h h3
        · exact ⟨h1, h2, h3⟩
    · rw [unseenSet_keep self known p rest h]
      simp only [List.map_cons, List.mem_cons, ih, not_or]
      simp only [not_or] at h
      constructor
      · rintro (h1 | ⟨h1, h2, h3, h4⟩)
        · subst h1
          exact ⟨Or.inl rfl, h.1, h.2⟩
        · exact ⟨Or.inr h1, h2, h4⟩
      · rintro ⟨h1 | h1, h2, h3⟩
        · exact Or.inl h1
        · by_cases hkp : k = p.Key
          · exact Or.inl hkp
          · exact Or.inr ⟨h1, h2, hkp, h3⟩

theorem unseenSet_nodup (self : String) (l : List KVPair) (known : List String) :
    ((unseenSet self known l).map KVPair.Key).Nodup := by
  induction l generalizing known with
  | nil => simp [unseenSet]
  | cons p rest ih =>
    by_cases h : p.Key = self ∨ p.Key ∈ known
    · rw [unseenSet_skip self known p rest h]
      exact ih known
    · rw [unseenSet_keep self known p rest h, List.map_cons, List.nodup_cons]
      refine ⟨?_, ih _⟩
      rw [unseenSet_key_mem]
      simp

theorem unseenSet_sublist (self : String) (l : List KVPair) (known : List String) :
    List.Sublist (unseenSet self known l) l := by
  induction l generalizing known with
  | nil => simp [unseenSet]
  | cons p rest ih =>
    by_cases h : p.Key = self ∨ p.Key ∈ known
    · rw [unseenSet_skip self known p rest h]
      exact List.Sublist.cons p (ih known)
    · rw [unseenSet_keep self known p rest h]
      exact List.Sublist.cons₂ p (ih _)

theorem unseenSet_mem (self : String) (l : List KVPair) (known : List String) (p : KVPair)
    (hp : p ∈ unseenSet self known l) : p ∈ l ∧ p.Key ≠ self ∧ p.Key ∉ known := by
  refine ⟨(unseenSet_sublist self l known).subset hp, ?_⟩
  have : p.Key ∈ (unseenSet self known l).map KVPair.Key := List.mem_map_of_mem _ hp
  rw [unseenSet_key_mem] at this
  exact this.2

/-- With pairwise distinct names, none of them known and none the own name,
the unseen set is the whole listing. -/
theorem unseenSet_all (self : String) (l : List KVPair) (known : List String)
    (hnd : (l.map KVPair.Key).Nodup) (hself : self ∉ l.map KVPair.Key)
    (hknown : ∀ k ∈ l.map KVPair.Key, k ∉ known) :
    unseenSet self known l = l := by
  induction l generalizing known with
  | nil => simp [unseenSet]
  | cons p rest ih =>
    simp only [List.map_cons, List.nodup_cons, List.mem_cons, not_or] at hnd hself hknown
    have h : ¬ (p.Key = self ∨ p.Key ∈ known) := by
      rintro (h | h)
      · exact hself.1 h.symm
      · exact hknown p.Key (Or.inl rfl) h
    rw [unseenSet_keep self known p rest h, ih _ hnd.2 hself.2]
    intro k hk
    simp only [List.mem_cons, not_or]
    refine ⟨?_, hknown k (Or.inr hk)⟩
    intro e
    subst e
    exact hnd.1 hk

/-- With pairwise distinct names, none of them known and one of them the own
name, the unseen set has one entry less than the listing. -/
theorem unseenSet_length (self : String) (l : List KVPair) (known : List String)
    (hnd : (l.map KVPair.Key).Nodup) (hself : self ∈ l.map KVPair.Key)
    (hknown : ∀ k ∈ l.map KVPair.Key, k ∉ known) :
    (unseenSet self known l).length + 1 = l.length := by
  induction l generalizing known with
  | nil => simp at hself
  | cons p rest ih =>
    simp only [List.map_cons, List.nodup_cons, List.mem_cons] at hnd hself hknown
    have hrest : ∀ k ∈ rest.map KVPair.Key, k ∉ p.Key :: known := by
      intro k hk
      simp only [List.mem_cons, not_or]
      refine ⟨?_, hknown k (Or.inr hk)⟩
      intro e
      subst e
      exact hnd.1 hk
    by_cases hp : p.Key = self
    · rw [unseenSet_skip self known p rest (Or.inl hp)]
      have hnot : self ∉ rest.map KVPair.Key := by
        rw [← hp]
        exact hnd.1
      rw [unseenSet_all self rest known hnd.2 hnot (fun k hk => hknown k (Or.inr hk))]
      rfl
    · have h : ¬ (p.Key = self ∨ p.Key ∈ known) := by
        rintro (h | h)
        · exact hp h
        · exact hknown p.Key (Or.inl rfl) h
      have hin : self ∈ rest.map KVPair.Key := by
        rcases hself with e | e
        · exact absurd e.symm hp
        · exact e
      rw [unseenSet_keep self known p rest h]
      simp only [List.length_cons]
      rw [ih _ hnd.2 hin hrest]

/-! ## Cycles in which every attempt succeeds -/

/-- When every attempt succeeds the loop returns, it dials the unseen set in
order, and the registry gains one entry per unseen peer. -/
theorem greetLoop_allOk (l : List KVPair) (n : node) (cs : Conns) (out : Nat → Outcome)
    (hok : allOk out) :
    (greetLoop n cs l out).status = .returned ∧
    attempts (greetLoop n cs l out).events =
      (unseenSet n.Name (mapKeys n.Clients) l).map (fun p => (p.Key, p.Value)) ∧
    mapKeys (greetLoop n cs l out).n.Clients =
      ((unseenSet n.Name (mapKeys n.Clients) l).map KVPair.Key).reverse ++ mapKeys n.Clients := by
  induction l generalizing n cs out with
  | nil =>
    unfold greetLoop
    simp [unseenSet, attempts]
  | cons p rest ih =>
    have hok' : allOk (fun i => out (i + 1)) := fun i => hok (i + 1)
    by_cases hc : p.Key = n.Name ∨ mapGet n.Clients p.Key ≠ none
    · have hu : p.Key = n.Name ∨ p.Key ∈ mapKeys n.Clients := by
        rcases hc with h | h
        · exact Or.inl h
        · right
          by_contra hn
          exact h ((mapGet_eq_none_iff _ _).2 hn)
      rw [greetLoop_skip n cs p rest out hc, unseenSet_skip _ _ p rest hu]
      exact ih n cs _ hok'
    · simp only [not_or, not_not] at hc
      obtain ⟨h1, h2⟩ := hc
      have hu : ¬ (p.Key = n.Name ∨ p.Key ∈ mapKeys n.Clients) := by
        rintro (h | h)
        · exact h1 h
        · exact (mapGet_eq_none_iff _ _).1 h2 h
      obtain ⟨reply, hr⟩ := hok 0
      rw [greetLoop_setup n cs p rest out h1 h2, unseenSet_keep _ _ p rest hu, hr]
      have hs : (SetupNewClient n cs p.Key p.Value (.ok reply)).status = .returned := rfl
      have hname : (SetupNewClient n cs p.Key p.Value (.ok reply)).n.Name = n.Name := rfl
      have hkeys : mapKeys (SetupNewClient n cs p.Key p.Value (.ok reply)).n.Clients =
          p.Key :: mapKeys n.Clients := by
        show mapKeys (mapSet n.Clients p.Key cs.length) = _
        rw [mapSet_absent _ _ _ h2]
        rfl
      have he : attempts (SetupNewClient n cs p.Key p.Value (.ok reply)).events
          = [(p.Key, p.Value)] := setup_attempts _ _ _ _ _
      rw [hs]
      simp only
      obtain ⟨ih1, ih2, ih3⟩ := ih (SetupNewClient n cs p.Key p.Value (.ok reply)).n
        (SetupNewClient n cs p.Key p.Value (.ok reply)).conns _ hok'
      rw [hname, hkeys] at ih2 ih3
      refine ⟨ih1, ?_, ?_⟩
      · rw [attempts_append, he, ih2]
        rfl
      · rw [ih3]
        simp

/-- When every listed peer is the node itself or already registered, the loop
does nothing. -/
theorem greetLoop_known (l : List KVPair) (n : node) (cs : Conns) (out : Nat → Outcome)
    (h : ∀ p ∈ l, p.Key = n.Name ∨ mapGet n.Clients p.Key ≠ none) :
    greetLoop n cs l out = ⟨.returned, n, cs, []⟩ := by
  induction l generalizing out with
  | nil => unfold greetLoop; rfl
  | cons p rest ih =>
    rw [greetLoop_skip n cs p rest out (h p (List.mem_cons_self _ _))]
    exact ih _ (fun q hq => h q (List.mem_cons_of_mem _ hq))

theorem mainLoop_known (l : List KVPair) (n : node) (cs : Conns) (outs : List (Nat → Outcome))
    (h : ∀ p ∈ l, p.Key = n.Name ∨ mapGet n.Clients p.Key ≠ none) :
    mainLoop n cs (outs.map (fun o => ⟨staticKV l, o⟩)) = ⟨.returned, n, cs, []⟩ := by
  induction outs with
  | nil => unfold mainLoop; rfl
  | cons o rest ih =>
    have hg : GreetAllNeighbors n cs (staticKV l) o = ⟨.returned, n, cs, []⟩ :=
      greetLoop_known l n cs o h
    rw [List.map_cons, mainLoop_ret n cs _ _ (by rw [hg])]
    simp only [hg, ih]
    rfl

theorem unseenSet_eq_filter (self : String) (l : List KVPair) (known : List String)
    (hnd : (l.map KVPair.Key).Nodup) :
    unseenSet self known l = l.filter (fun p => decide (p.Key ≠ self ∧ p.Key ∉ known)) := by
  induction l generalizing known with
  | nil => simp [unseenSet]
  | cons p rest ih =>
    simp only [List.map_cons, List.nodup_cons] at hnd
    by_cases h : p.Key = self ∨ p.Key ∈ known
    · have hd : decide (p.Key ≠ self ∧ p.Key ∉ known) = false := by
        rw [decide_eq_false_iff_not]
        intro hh
        rcases h with h | h
        · exact hh.1 h
        · exact hh.2 h
      rw [unseenSet_skip self known p rest h, ih known hnd.2]
      simp only [List.filter_cons, hd]
      rfl
    · have hd : decide (p.Key ≠ self ∧ p.Key ∉ known) = true := by
        rw [decide_eq_true_iff]
        exact not_or.1 h
      rw [unseenSet_keep self known p rest h, ih _ hnd.2]
      simp only [List.filter_cons, hd, if_true]
      congr 1
      apply List.filter_congr
      intro q hq
      have hne : q.Key ≠ p.Key := by
        intro e
        apply hnd.1
        rw [← e]
        exact List.mem_map_of_mem _ hq
      simp [hne]

/-! ## Diffing and order -/

/-- C7: for every registry state and every listing, when all attempts succeed
the peers for which one cycle calls `SetupNewClient` are, with the address
stored as the entry's value, exactly the unseen set in listing order: a
subsequence of the listing, holding each name at most once, whose names are the
listed names that differ from the own name and are not keys of the registry at
the start of the cycle; when the listed names are pairwise distinct it is the
listing filtered by these two tests. -/
theorem attempts_are_unseen (n : node) (cs : Conns) (l : List KVPair) (out : Nat → Outcome)
    (hok : allOk out) :
    attempts (GreetAllNeighbors n cs (staticKV l) out).events =
      (unseenSet n.Name (mapKeys n.Clients) l).map (fun p => (p.Key, p.Value)) ∧
    List.Sublist (unseenSet n.Name (mapKeys n.Clients) l) l ∧
    ((unseenSet n.Name (mapKeys n.Clients) l).map KVPair.Key).Nodup ∧
    (∀ k, k ∈ (unseenSet n.Name (mapKeys n.Clients) l).map KVPair.Key ↔
      k ∈ l.map KVPair.Key ∧ k ≠ n.Name ∧ mapGet n.Clients k = none) ∧
    ((l.map KVPair.Key).Nodup → unseenSet n.Name (mapKeys n.Clients) l =
      l.filter (fun p => decide (p.Key ≠ n.Name ∧ mapGet n.Clients p.Key = none))) := by
  refine ⟨(greetLoop_allOk l n cs out hok).2.1, unseenSet_sublist _ _ _, unseenSet_nodup _ _ _,
    ?_, ?_⟩
  · intro k
    rw [unseenSet_key_mem, mapGet_eq_none_iff]
  · intro hnd
    rw [unseenSet_eq_filter _ _ _ hnd]
    apply List.filter_congr
    intro q _
    exact decide_eq_decide.2 (by rw [mapGet_eq_none_iff])

/-- C7 (witness): the node "Node1" knows "Node3"; of the listing Node2, Node1,
Node3, Node4, Node2 it dials "Node2" and "Node4", each once, in that order. -/
theorem attempts_are_unseen_witness :
    allOk (fun _ => .ok ⟨"Hello"⟩) ∧
    attempts (GreetAllNeighbors ⟨"Node1", "a", "sd", [("Node3", 0)]⟩ [false]
      (staticKV [⟨"Node2", "b"⟩, ⟨"Node1", "a"⟩, ⟨"Node3", "c"⟩, ⟨"Node4", "d"⟩, ⟨"Node2", "e"⟩])
      (fun _ => .ok ⟨"Hello"⟩)).events = [("Node2", "b"), ("Node4", "d")] :=
  ⟨fun _ => ⟨_, rfl⟩,
    (attempts_are_unseen ⟨"Node1", "a", "sd", [("Node3", 0)]⟩ [false]
      [⟨"Node2", "b"⟩, ⟨"Node1", "a"⟩, ⟨"Node3", "c"⟩, ⟨"Node4", "d"⟩, ⟨"Node2", "e"⟩]
      (fun _ => .ok ⟨"Hello"⟩) (fun _ => ⟨_, rfl⟩)).1.trans (by decide)⟩

/-! ## Discovery under a stable directory -/

/-- C6: for a node that runs its cycles (its registration succeeded and its
listening server is serving), when the listing has pairwise distinct names,
contains the node's own name and is the same in every cycle, and every connect
and greet of the first cycle succeeds, then starting from the empty registry the
first cycle returns with the registry keys being the listed names other than the
own name, so the registry has (listing length - 1) entries; and the run with any
number of further cycles ends in the same state with the same transport calls:
these cycles change nothing and attempt no connection. -/
theorem stable_directory_converges (n : node) (d : Directory) (l : List KVPair)
    (out : Nat → Outcome) (more : List (Nat → Outcome))
    (hnd : (l.map KVPair.Key).Nodup) (hself : n.Name ∈ l.map KVPair.Key) (hok : allOk out) :
    (Start n d .serving true true [⟨staticKV l, out⟩]).status = .returned ∧
    (∀ k, k ∈ mapKeys (Start n d .serving true true [⟨staticKV l, out⟩]).n.Clients ↔
      k ∈ l.map KVPair.Key ∧ k ≠ n.Name) ∧
    (Start n d .serving true true [⟨staticKV l, out⟩]).n.Clients.length = l.length - 1 ∧
    Start n d .serving true true (⟨staticKV l, out⟩ :: more.map (fun o => ⟨staticKV l, o⟩)) =
      Start n d .serving true true [⟨staticKV l, out⟩] := by
  obtain ⟨g1, _, g3⟩ := greetLoop_allOk l { n with Clients := [] } [] out hok
  have hname : (greetLoop { n with Clients := [] } [] l out).n.Name = n.Name :=
    (stable_greetLoop stable_identity l { n with Clients := [] } [] out).1
  simp only [mapKeys, List.map_nil, List.append_nil] at g3
  have hkeys : ∀ k, k ∈ mapKeys (greetLoop { n with Clients := [] } [] l out).n.Clients ↔
      k ∈ l.map KVPair.Key ∧ k ≠ n.Name := by
    intro k
    simp only [mapKeys]
    rw [g3, List.mem_reverse, unseenSet_key_mem]
    simp
  have hknown : ∀ p ∈ l, p.Key = (greetLoop { n with Clients := [] } [] l out).n.Name ∨
      mapGet (greetLoop { n with Clients := [] } [] l out).n.Clients p.Key ≠ none := by
    intro p hp
    by_cases hpk : p.Key = n.Name
    · left
      rw [hname]
      exact hpk
    · right
      intro hnone
      exact (mapGet_eq_none_iff _ _).1 hnone ((hkeys p.Key).2 ⟨List.mem_map_of_mem _ hp, hpk⟩)
  have hrun : ∀ outs : List (Nat → Outcome),
      Start n d .serving true true (⟨staticKV l, out⟩ :: outs.map (fun o => ⟨staticKV l, o⟩)) =
        (greetLoop { n with Clients := [] } [] l out).andThen
          ⟨.returned, (greetLoop { n with Clients := [] } [] l out).n,
            (greetLoop { n with Clients := [] } [] l out).conns, []⟩ := by
    intro outs
    rw [Start_serving, mainLoop_ret { n with Clients := [] } [] ⟨staticKV l, out⟩ _ g1]
    show (greetLoop { n with Clients := [] } [] l out).andThen
      (mainLoop (greetLoop { n with Clients := [] } [] l out).n
        (greetLoop { n with Clients := [] } [] l out).conns
        (outs.map (fun o => ⟨staticKV l, o⟩))) = _
    rw [mainLoop_known l _ _ outs hknown]
  have hone := hrun []
  simp only [List.map_nil] at hone
  refine ⟨?_, ?_, ?_, ?_⟩
  · rw [hone]
    rfl
  · intro k
    rw [hone]
    exact hkeys k
  · rw [hone]
    show (greetLoop { n with Clients := [] } [] l out).n.Clients.length = l.length - 1
    have hlen := unseenSet_length n.Name l [] hnd hself (by simp)
    have : (greetLoop { n with Clients := [] } [] l out).n.Clients.length =
        (unseenSet n.Name [] l).length := by
      have := congrArg List.length g3
      simpa using this
    omega
  · rw [hrun more, hone]

/-- C6 (witness): three nodes listed, the node "Node1" runs three cycles. -/
theorem stable_directory_converges_witness :
    ([(⟨"Node1", "localhost:5001"⟩ : KVPair), ⟨"Node2", "localhost:5002"⟩, ⟨"Node3", "localhost:5003"⟩].map KVPair.Key).Nodup ∧
    (⟨"Node1", "localhost:5001", "localhost:8500", []⟩ : node).Name ∈
      [(⟨"Node1", "localhost:5001"⟩ : KVPair), ⟨"Node2", "localhost:5002"⟩, ⟨"Node3", "localhost:5003"⟩].map KVPair.Key ∧
    allOk (fun _ => .ok ⟨"Hello"⟩) ∧
    (Start ⟨"Node1", "localhost:5001", "localhost:8500", []⟩ [] .serving true true
      [⟨staticKV [⟨"Node1", "localhost:5001"⟩, ⟨"Node2", "localhost:5002"⟩, ⟨"Node3", "localhost:5003"⟩],
        fun _ => .ok ⟨"Hello"⟩⟩]).status = .returned ∧
    (Start ⟨"Node1", "localhost:5001", "localhost:8500", []⟩ [] .serving true true
      [⟨staticKV [⟨"Node1", "localhost:5001"⟩, ⟨"Node2", "localhost:5002"⟩, ⟨"Node3", "localhost:5003"⟩],
        fun _ => .ok ⟨"Hello"⟩⟩]).n.Clients.length = 3 - 1 ∧
    Start ⟨"Node1", "localhost:5001", "localhost:8500", []⟩ [] .serving true true
      (⟨staticKV [⟨"Node1", "localhost:5001"⟩, ⟨"Node2", "localhost:5002"⟩, ⟨"Node3", "localhost:5003"⟩], fun _ => .ok ⟨"Hello"⟩⟩ ::
        [fun _ => .dialErr, fun _ => .ok ⟨"Hello"⟩].map
          (fun o => ⟨staticKV [⟨"Node1", "localhost:5001"⟩, ⟨"Node2", "localhost:5002"⟩, ⟨"Node3", "localhost:5003"⟩], o⟩)) =
      Start ⟨"Node1", "localhost:5001", "localhost:8500", []⟩ [] .serving true true
        [⟨staticKV [⟨"Node1", "localhost:5001"⟩, ⟨"Node2", "localhost:5002"⟩, ⟨"Node3", "localhost:5003"⟩], fun _ => .ok ⟨"Hello"⟩⟩] :=
  have h := stable_directory_converges ⟨"Node1", "localhost:5001", "localhost:8500", []⟩ []
    [⟨"Node1", "localhost:5001"⟩, ⟨"Node2", "localhost:5002"⟩, ⟨"Node3", "localhost:5003"⟩] (fun _ => .ok ⟨"Hello"⟩)
    [fun _ => .dialErr, fun _ => .ok ⟨"Hello"⟩] (by decide) (by decide) (fun _ => ⟨_, rfl⟩)
  ⟨by decide, by decide, fun _ => ⟨_, rfl⟩, h.1, h.2.2.1, h.2.2.2⟩

end HelloNode
